import Mathlib

/-!
Shallow embedding of fio's `t/latency_percentiles.py`, the latency-percentile
reporting checker.

Modelling conventions:
* Python integers are `ℤ` (arbitrary precision, as in Python).
* Python `/` (true division) on integers is modelled by exact division in `ℚ`;
  division by zero is modelled as the `ZeroDivisionError` exception.
* Exceptions are modelled with `Except PyErr`; `print` diagnostics are
  accumulated in a `List Diag`, one constructor per distinct message of the
  script, carrying the values the message interpolates.
* JSON documents are modelled at the parser boundary: percentile labels
  (decimal strings such as "99.000000") are carried as their parsed rational
  value, dictionaries as association lists / optional fields, and the
  per-event latency log file as a list of records with the two fields the
  script reads (`line[1]` the latency value, `line[2]` the direction code).
-/

/-- Python exceptions that the script can raise. -/
inductive PyErr where
  | keyError (k : String)
  | zeroDivisionError
  | valueError
  | indexError
  deriving DecidableEq, Repr

/-- The three latency types iterated by `check_latencies`:
submission latency, completion latency, total latency. -/
inductive LatKind where
  | slat
  | clat
  | lat
  deriving DecidableEq, Repr

/-- Diagnostics: one constructor per distinct `print` in the script, carrying
the interpolated values. -/
inductive Diag where
  | unexpectedPercentiles (k : LatKind)
  | percentilesSkipped (k : LatKind)
  | percentilesNotFound (k : LatKind)
  | binsNotFound (k : LatKind)
  | unexpectedBins (k : LatKind)
  | minMismatch (reported smallest : ℤ)
  | maxMismatch (reported biggest : ℤ)
  | countMismatch (n sampsize : ℤ)
  | totalIosMismatch (k : LatKind) (total_ios : ℤ) (logged : ℕ)
  | percentileError (k : LatKind) (pct : ℚ) (fio expected : ℤ) (delta : ℚ)
  | rankIndex (rank index : ℤ)
  | percentilesMatch (k : LatKind)
  | syncPercentilesNotFound
  | syncCountMismatch
  | unexpectedSyncBins
  | terseMismatch (pct : ℚ) (jsonNs jsonVal terseVal : ℤ)
  deriving DecidableEq, Repr

/-- One record of a fio latency log file: the script reads `int(line[1])`
(the latency value in nanoseconds) and `int(line[2])` (the direction code). -/
structure LogRecord where
  value : ℤ
  ddir : ℤ
  deriving DecidableEq, Repr

/-- The `slat_ns` / `clat_ns` / `lat_ns` sub-object of a fio JSON job section:
`N`, `min`, `max` are always present; `percentile` and `bins` are optional
keys.  Percentile labels are carried as their parsed rational value. -/
structure LatStats where
  percentile : Option (List (ℚ × ℤ))
  bins : Option (List (ℤ × ℤ))
  N : ℤ
  min : ℤ
  max : ℤ
  deriving DecidableEq, Repr

/-- The per-direction section of a fio JSON job, restricted to the fields the
script reads. -/
structure DirStats where
  total_ios : ℤ
  slat_ns : LatStats
  clat_ns : LatStats
  lat_ns : LatStats
  deriving DecidableEq, Repr

/-- `jsondata[lat+'_ns']` : select the stats sub-object for a latency type. -/
def DirStats.statsOf (j : DirStats) : LatKind → LatStats
  | .slat => j.slat_ns
  | .clat => j.clat_ns
  | .lat => j.lat_ns

/-- `delta = abs(estimate - actual) / actual`, the proportional error computed
by `similar` (exact rational arithmetic in place of Python float division). -/
def pydelta (estimate actual : ℤ) : ℚ :=
  |(estimate : ℚ) - (actual : ℚ)| / (actual : ℚ)

/-- The boolean the script's `similar` returns when the division succeeds:
`delta <= 1/128`. -/
def relOk (estimate actual : ℤ) : Bool :=
  decide (pydelta estimate actual ≤ 1 / 128)

/-- `similar(estimate, actual)` from the script: divides by `actual`
unconditionally, so `actual == 0` raises `ZeroDivisionError`. -/
def similar (estimate actual : ℤ) : Except PyErr Bool :=
  if actual = 0 then .error .zeroDivisionError
  else .ok (relOk estimate actual)

theorem similar_eq_ok (estimate actual : ℤ) (h : actual ≠ 0) :
    similar estimate actual = .ok (relOk estimate actual) := by
  simp [similar, h]

/-- For a positive denominator, the rational tolerance test is the integer
inequality `128 * |e - a| ≤ a`. -/
theorem relOk_iff (e a : ℤ) (ha : 0 < a) :
    relOk e a = true ↔ 128 * |e - a| ≤ a := by
  have ha' : (0 : ℚ) < (a : ℚ) := by exact_mod_cast ha
  rw [relOk, decide_eq_true_iff, pydelta, ← Int.cast_sub, ← Int.cast_abs,
    div_le_iff ha', show (1 : ℚ) / 128 * (a : ℚ) = (a : ℚ) / 128 by ring,
    le_div_iff (by norm_num : (0 : ℚ) < 128)]
  constructor
  · intro h
    have h2 : |e - a| * 128 ≤ a := by exact_mod_cast h
    omega
  · intro h
    have h2 : |e - a| * 128 ≤ a := by omega
    exact_mod_cast h2

deriving instance DecidableEq for Except

/-- `rank = math.ceil(float(percentile)/100 * len(latencies))`
(rational arithmetic in place of Python float arithmetic; the percentile
label is carried already parsed). -/
def percentile_rank (p : ℚ) (n : ℕ) : ℤ :=
  ⌈p / 100 * (n : ℚ)⌉

/-- `index = rank - 1 if rank > 0 else 0`. -/
def percentile_index (rank : ℤ) : ℤ :=
  if rank > 0 then rank - 1 else 0

/-- The nearest-rank percentile estimator inlined in `check_latencies`
(`latencies.sort()` followed by `value = latencies[int(index)]`): sort
ascending and look up the clamped rank; an out-of-range index is Python's
`IndexError`, modelled as `none`. -/
def estimate (samples : List ℤ) (p : ℚ) : Option ℤ :=
  (samples.insertionSort (· ≤ ·)).get?
    (percentile_index (percentile_rank p samples.length)).toNat

theorem percentile_index_eq_max (rank : ℤ) :
    percentile_index rank = max (rank - 1) 0 := by
  unfold percentile_index
  split <;> omega

theorem percentile_rank_pos (p : ℚ) (n : ℕ) (hn : 0 < n) (hp : 0 < p) :
    1 ≤ percentile_rank p n := by
  have hn' : (0 : ℚ) < (n : ℚ) := by exact_mod_cast hn
  have h : (0 : ℚ) < p / 100 * (n : ℚ) := by positivity
  have h2 : (0 : ℤ) < ⌈p / 100 * (n : ℚ)⌉ := Int.lt_ceil.mpr (by exact_mod_cast h)
  unfold percentile_rank
  omega

theorem percentile_rank_le (p : ℚ) (n : ℕ) (hp : p ≤ 100) :
    percentile_rank p n ≤ (n : ℤ) := by
  apply Int.ceil_le.mpr
  have hn' : (0 : ℚ) ≤ (n : ℚ) := by positivity
  have h1 : p / 100 ≤ 1 := (div_le_one (by norm_num)).mpr hp
  calc p / 100 * (n : ℚ) ≤ 1 * (n : ℚ) := mul_le_mul_of_nonneg_right h1 hn'
    _ = ((n : ℤ) : ℚ) := by push_cast; ring

theorem percentile_index_toNat_lt (p : ℚ) (n : ℕ) (hn : 0 < n) (hp : 0 < p)
    (hp2 : p ≤ 100) :
    (percentile_index (percentile_rank p n)).toNat < n := by
  have h1 := percentile_rank_pos p n hn hp
  have h2 := percentile_rank_le p n hp2
  unfold percentile_index
  split <;> omega

theorem sorted_length (l : List ℤ) :
    (l.insertionSort (· ≤ ·)).length = l.length :=
  (l.perm_insertionSort (· ≤ ·)).length_eq

theorem sorted_mem (l : List ℤ) (x : ℤ) :
    x ∈ l.insertionSort (· ≤ ·) ↔ x ∈ l :=
  (l.perm_insertionSort (· ≤ ·)).mem_iff

/-- C1: for every non-empty sample sequence `S` and percentile
`p ∈ (0, 100]`, the estimator's lookup succeeds and equals
`S_sorted[max(ceil(p/100*|S|) - 1, 0)]`. -/
theorem estimate_eq_nearest_rank (S : List ℤ) (p : ℚ) (hne : S ≠ [])
    (hp : 0 < p) (hp2 : p ≤ 100) :
    (estimate S p).isSome = true ∧
    estimate S p = (S.insertionSort (· ≤ ·)).get?
      (max (⌈p / 100 * (S.length : ℚ)⌉ - 1) 0).toNat := by
  have hn : 0 < S.length := List.length_pos.mpr hne
  constructor
  · have hlt : (percentile_index (percentile_rank p S.length)).toNat <
        (S.insertionSort (· ≤ ·)).length := by
      rw [sorted_length]
      exact percentile_index_toNat_lt p S.length hn hp hp2
    rw [estimate, List.get?_eq_get hlt]
    rfl
  · rw [estimate, percentile_index_eq_max]
    rfl

/-- Witness for C1 at `S = [3, 1, 2]`, `p = 50`. -/
theorem estimate_eq_nearest_rank_witness :
    (estimate [3, 1, 2] 50).isSome = true ∧
    estimate [3, 1, 2] 50 = (([3, 1, 2] : List ℤ).insertionSort (· ≤ ·)).get?
      (max (⌈(50 : ℚ) / 100 * ((([3, 1, 2] : List ℤ).length : ℕ) : ℚ)⌉ - 1) 0).toNat :=
  estimate_eq_nearest_rank [3, 1, 2] 50 (by decide) (by norm_num) (by norm_num)

/-- `keys = [int(k) for k in jsondata['bins'].keys()]`. -/
def binsKeys (l : List (ℤ × ℤ)) : List ℤ :=
  l.map Prod.fst

/-- Python `min(xs)`: `ValueError` on an empty sequence. -/
def pymin (xs : List ℤ) : Except PyErr ℤ :=
  match xs with
  | [] => .error .valueError
  | x :: rest => .ok (rest.foldl min x)

/-- Python `max(xs)`: `ValueError` on an empty sequence. -/
def pymax (xs : List ℤ) : Except PyErr ℤ :=
  match xs with
  | [] => .error .valueError
  | x :: rest => .ok (rest.foldl max x)

/-- The smallest bucket key (0 on an empty table, which `check_jsonplus`
never reaches). -/
def binsMin (l : List (ℤ × ℤ)) : ℤ :=
  match binsKeys l with
  | [] => 0
  | x :: rest => rest.foldl min x

/-- The largest bucket key (0 on an empty table, which `check_jsonplus`
never reaches). -/
def binsMax (l : List (ℤ × ℤ)) : ℤ :=
  match binsKeys l with
  | [] => 0
  | x :: rest => rest.foldl max x

/-- `sampsize = sum(values)`. -/
def binsCount (l : List (ℤ × ℤ)) : ℤ :=
  (l.map Prod.snd).sum

/-- `check_jsonplus(jsondata)`: check reported `min`/`max` against the
extreme bucket keys via `similar`, and the reported sample size `N` against
the total bucket count by exact equality; every check that fails prints its
own diagnostic, and all three are evaluated (no early return). -/
def check_jsonplus (jsondata : LatStats) : List Diag × Except PyErr Bool :=
  match jsondata.bins with
  | none => ([], .error (.keyError "bins"))
  | some binsList =>
    match pymin (binsKeys binsList), pymax (binsKeys binsList) with
    | .ok smallest, .ok biggest =>
      let sampsize := binsCount binsList
      match similar jsondata.min smallest with
      | .error e => ([], .error e)
      | .ok ok1 =>
        let d1 : List Diag := if ok1 then [] else [.minMismatch jsondata.min smallest]
        match similar jsondata.max biggest with
        | .error e => (d1, .error e)
        | .ok ok2 =>
          let d2 : List Diag := if ok2 then [] else [.maxMismatch jsondata.max biggest]
          let ok3 : Bool := sampsize == jsondata.N
          let d3 : List Diag := if ok3 then [] else [.countMismatch jsondata.N sampsize]
          (d1 ++ d2 ++ d3, .ok (ok1 && ok2 && ok3))
    | _, _ => ([], .error .valueError)

theorem pymin_of_ne_nil (l : List (ℤ × ℤ)) (h : l ≠ []) :
    pymin (binsKeys l) = .ok (binsMin l) := by
  cases l with
  | nil => exact absurd rfl h
  | cons x rest => rfl

theorem pymax_of_ne_nil (l : List (ℤ × ℤ)) (h : l ≠ []) :
    pymax (binsKeys l) = .ok (binsMax l) := by
  cases l with
  | nil => exact absurd rfl h
  | cons x rest => rfl

/-- Full characterization of `check_jsonplus` on a present, non-empty bucket
table with non-zero extreme keys. -/
theorem check_jsonplus_eq (s : LatStats) (l : List (ℤ × ℤ))
    (hb : s.bins = some l) (hne : l ≠ [])
    (hmin : binsMin l ≠ 0) (hmax : binsMax l ≠ 0) :
    check_jsonplus s =
      ((if relOk s.min (binsMin l) then [] else [.minMismatch s.min (binsMin l)]) ++
       (if relOk s.max (binsMax l) then [] else [.maxMismatch s.max (binsMax l)]) ++
       (if binsCount l == s.N then [] else [.countMismatch s.N (binsCount l)]),
       .ok (relOk s.min (binsMin l) && relOk s.max (binsMax l) && (binsCount l == s.N))) := by
  rw [check_jsonplus, hb]
  simp only [pymin_of_ne_nil l hne, pymax_of_ne_nil l hne,
    similar_eq_ok s.min (binsMin l) hmin, similar_eq_ok s.max (binsMax l) hmax]

/-- C5: `check_jsonplus` returns `True` iff the smallest bucket key is within
1/128 relative tolerance of the reported `min`, the largest bucket key is
within 1/128 of the reported `max`, and the bucket counts sum exactly to `N`;
all three checks are evaluated on every call, each contributing its own
diagnostic on failure. -/
theorem check_jsonplus_iff (s : LatStats) (l : List (ℤ × ℤ))
    (hb : s.bins = some l) (hne : l ≠ [])
    (hmin : 0 < binsMin l) (hmax : 0 < binsMax l) :
    ((check_jsonplus s).2 = .ok true ↔
      (128 * |s.min - binsMin l| ≤ binsMin l ∧
       128 * |s.max - binsMax l| ≤ binsMax l ∧
       binsCount l = s.N)) ∧
    (check_jsonplus s).1 =
      (if relOk s.min (binsMin l) then [] else [.minMismatch s.min (binsMin l)]) ++
      (if relOk s.max (binsMax l) then [] else [.maxMismatch s.max (binsMax l)]) ++
      (if binsCount l == s.N then [] else [.countMismatch s.N (binsCount l)]) := by
  rw [check_jsonplus_eq s l hb hne (by omega) (by omega)]
  refine ⟨?_, rfl⟩
  simp only [Except.ok.injEq, Bool.and_eq_true, relOk_iff s.min (binsMin l) hmin,
    relOk_iff s.max (binsMax l) hmax, beq_iff_eq, and_assoc]

/-- Witness for C5 at scenario B: histogram `{100:5, 200:3, 300:2}`, `N = 10`,
`min = 100`, `max = 300` passes all three checks. -/
theorem check_jsonplus_iff_witness :
    (check_jsonplus ⟨none, some [(100, 5), (200, 3), (300, 2)], 10, 100, 300⟩).2 =
      .ok true :=
  ((check_jsonplus_iff ⟨none, some [(100, 5), (200, 3), (300, 2)], 10, 100, 300⟩
    [(100, 5), (200, 3), (300, 2)] rfl (by decide) (by decide) (by decide)).1).mpr
    (by decide)

/-- The sample multiset `[1, 2, ..., 100]` of scenario A. -/
def samples100 : List ℤ :=
  (List.range 100).map (fun i => (i : ℤ) + 1)

/-- C2: for a positive reference, `similar` passes exactly when the relative
error is at most 1/128 (equivalently `128*|e-a| <= a`); it is reflexive on
positive values; and in scenario A (`S = [1..100]`, `p = 99`) the reference
is 99, a reported 100 fails and a reported 99 passes. -/
theorem similar_iff_within_bound :
    (∀ e a : ℤ, 0 < a → (similar e a = .ok true ↔ 128 * |e - a| ≤ a)) ∧
    (∀ x : ℤ, 0 < x → similar x x = .ok true) ∧
    estimate samples100 99 = some 99 ∧
    similar 100 99 = .ok false ∧
    similar 99 99 = .ok true := by
  have key : ∀ e a : ℤ, 0 < a → (similar e a = .ok true ↔ 128 * |e - a| ≤ a) := by
    intro e a ha
    rw [similar_eq_ok e a (by omega)]
    simp only [Except.ok.injEq]
    exact relOk_iff e a ha
  refine ⟨key, ?_, ?_, ?_, ?_⟩
  · intro x hx
    rw [similar_eq_ok x x (by omega)]
    simp only [Except.ok.injEq]
    rw [relOk_iff x x hx]
    simpa using hx.le
  · have hlen : samples100.length = 100 := by decide
    have h1 : percentile_rank 99 samples100.length = 99 := by
      rw [hlen, percentile_rank]
      norm_num
    have h2 : percentile_index 99 = 98 := by norm_num [percentile_index]
    unfold estimate
    rw [h1, h2]
    decide
  · rw [similar_eq_ok 100 99 (by norm_num)]
    have h : relOk 100 99 = false := by
      rcases hb : relOk 100 99 with _ | _
      · rfl
      · have := (relOk_iff 100 99 (by norm_num)).mp hb
        exact absurd this (by decide)
    rw [h]
  · rw [similar_eq_ok 99 99 (by norm_num)]
    rw [(relOk_iff 99 99 (by norm_num)).mpr (by decide)]

/-- Witness for C2's quantified parts at `e = 100`, `a = 99` and `x = 7`. -/
theorem similar_iff_within_bound_witness :
    ¬ (similar 100 99 = .ok true) ∧ similar 7 7 = .ok true := by
  constructor
  · intro h
    have h2 := (similar_iff_within_bound.1 100 99 (by norm_num)).mp h
    exact absurd h2 (by decide)
  · exact similar_iff_within_bound.2.1 7 (by norm_num)

/-- C3 counterexample: `similar(0, 0)` is not a defined pass; the division
raises `ZeroDivisionError`. -/
theorem similar_zero_zero_raises :
    similar 0 0 = .error PyErr.zeroDivisionError := rfl

/-- C3 amended: when the reference value `actual` is zero, `similar` raises
`ZeroDivisionError` for every estimate — there is no zero policy: neither a
pass for `similar(0,0)` nor a distinct comparison-failure signal for
`similar(x,0)`. -/
theorem similar_actual_zero_raises (e : ℤ) :
    similar e 0 = .error PyErr.zeroDivisionError := by
  simp [similar]

/-- The per-percentile loop of `check_latencies` (`for percentile in
ptiles.keys()`), over the already-sorted latency list: compute the
nearest-rank reference, compare with `similar`, print a two-line diagnostic
for each failing percentile, and clear the iteration flag without aborting
the remaining percentiles.  `latencies[int(index)]` out of range is
`IndexError`; a zero reference raises `ZeroDivisionError` in the `delta`
line. -/
def ptile_loop (k : LatKind) (latencies : List ℤ) :
    List (ℚ × ℤ) → List Diag × Except PyErr Bool
  | [] => ([], .ok true)
  | (pct, pv) :: rest =>
    let rank := percentile_rank pct latencies.length
    let index := percentile_index rank
    match latencies.get? index.toNat with
    | none => ([], .error .indexError)
    | some value =>
      match similar pv value with
      | .error e => ([], .error e)
      | .ok sim =>
        let (d, r) := ptile_loop k latencies rest
        if sim then (d, r)
        else
          (Diag.percentileError k pct pv value (pydelta pv value) ::
           Diag.rankIndex rank index :: d,
           match r with
           | .error e => .error e
           | .ok _ => .ok false)

/-- The presence-gating head of one `for lat in ['slat','clat','lat']`
iteration: `none` in the second component models the `continue` taken for a
disabled latency type (the aggregate `retval` is left untouched in that
case). -/
def presence_phase (k : LatKind) (enabled : Bool) (stats : LatStats) :
    List Diag × Option Bool :=
  if enabled then
    if stats.percentile.isSome then ([], some true)
    else ([.percentilesNotFound k], some false)
  else
    if stats.percentile.isSome then ([.unexpectedPercentiles k], none)
    else ([.percentilesSkipped k], none)

/-- The json+ bins section of one iteration: under extended encoding the
bins must be present and pass `check_jsonplus`; under plain encoding they
must be absent. -/
def bins_phase (k : LatKind) (plus : Bool) (stats : LatStats) :
    List Diag × Except PyErr Bool :=
  if plus then
    match stats.bins with
    | none => ([.binsNotFound k], .ok false)
    | some _ => check_jsonplus stats
  else
    if stats.bins.isSome then ([.unexpectedBins k], .ok false)
    else ([], .ok true)

/-- `latencies`: the values loaded from the per-type latency log, filtered by
direction code unless unified reporting is active. -/
def loadLatencies (logrecs : List LogRecord) (ddir : ℤ) (unified : Bool) :
    List ℤ :=
  (logrecs.filter fun r => unified || r.ddir == ddir).map LogRecord.value

/-- One iteration of the `for lat in ['slat','clat','lat']` loop of
`check_latencies`.  The result is `ok none` when the iteration was left via
`continue` (disabled type), `ok (some b)` when it ran to the end with
iteration flag `b`, and `error e` when a Python exception escapes. -/
def check_one (k : LatKind) (logrecs : List LogRecord) (stats : LatStats)
    (total_ios ddir : ℤ) (enabled plus unified : Bool) :
    List Diag × Except PyErr (Option Bool) :=
  match presence_phase k enabled stats with
  | (d1, none) => (d1, .ok none)
  | (d1, some it1) =>
    match bins_phase k plus stats with
    | (d2, .error e) => (d1 ++ d2, .error e)
    | (d2, .ok it2) =>
      let latencies := loadLatencies logrecs ddir unified
      let (d3, it3) :=
        if total_ios ≠ (latencies.length : ℤ) then
          ([Diag.totalIosMismatch k total_ios latencies.length], false)
        else ([], true)
      let sorted := latencies.insertionSort (· ≤ ·)
      match stats.percentile with
      | none => (d1 ++ d2 ++ d3, .error (.keyError "percentile"))
      | some ptiles =>
        match ptile_loop k sorted ptiles with
        | (d4, .error e) => (d1 ++ d2 ++ d3 ++ d4, .error e)
        | (d4, .ok it4) =>
          (d1 ++ d2 ++ d3 ++ d4, .ok (some (it1 && it2 && it3 && it4)))

/-- The outer loop of `check_latencies` over the three latency types, with
their enabled flags, threading `retval`.  A completed iteration with a true
flag prints "percentiles match"; a false flag clears `retval`; a `continue`
leaves `retval` untouched. -/
def run_kinds (logs : LatKind → List LogRecord) (jsondata : DirStats)
    (ddir : ℤ) (plus unified : Bool) :
    List (LatKind × Bool) → Bool → List Diag × Except PyErr Bool
  | [], retval => ([], .ok retval)
  | (k, en) :: rest, retval =>
    match check_one k (logs k) (jsondata.statsOf k) jsondata.total_ios ddir
        en plus unified with
    | (d, .error e) => (d, .error e)
    | (d, .ok none) =>
      let rec2 := run_kinds logs jsondata ddir plus unified rest retval
      (d ++ rec2.1, rec2.2)
    | (d, .ok (some b)) =>
      let d1 := if b then d ++ [Diag.percentilesMatch k] else d
      let rec2 := run_kinds logs jsondata ddir plus unified rest (retval && b)
      (d1 ++ rec2.1, rec2.2)

/-- `check_latencies(test_dir, filename, jsondata, ddir, slat, clat, tlat,
plus, unified)`: the per-type latency log files are modelled as the map
`logs` from latency type to the records of `{filename}_{lat}.1.log`. -/
def check_latencies (logs : LatKind → List LogRecord) (jsondata : DirStats)
    (ddir : ℤ) (slat clat tlat plus unified : Bool) :
    List Diag × Except PyErr Bool :=
  run_kinds logs jsondata ddir plus unified
    [(LatKind.slat, slat), (LatKind.clat, clat), (LatKind.lat, tlat)] true

/-- `check_sync_lat(jsondata, plus)`: checks fsync percentile data; note the
final `check_jsonplus` call is unconditional, even when `plus` is false and
no bins are present. -/
def check_sync_lat (jsondata : DirStats) (plus : Bool) :
    List Diag × Except PyErr Bool :=
  match jsondata.lat_ns.percentile with
  | none => ([.syncPercentilesNotFound], .ok false)
  | some _ =>
    let d1 : List Diag :=
      if jsondata.total_ios ≠ jsondata.lat_ns.N then [.syncCountMismatch] else []
    let retval1 : Bool := jsondata.total_ios == jsondata.lat_ns.N
    if plus = false ∧ jsondata.lat_ns.bins.isSome then
      (d1 ++ [.unexpectedSyncBins], .ok false)
    else
      match check_jsonplus jsondata.lat_ns with
      | (d2, .error e) => (d1 ++ d2, .error e)
      | (d2, .ok b) => (d1 ++ d2, .ok (retval1 && b))

/-- One field of the terse report's percentile slice, after the
`lat.split('%')` / `int(split[1][1:])` parse: the percentile label (as its
parsed rational value) and the integer microsecond value. -/
structure TerseField where
  pct : ℚ
  value : ℤ
  deriving DecidableEq, Repr

/-- Python dictionary lookup `jsondata[pct]`: `KeyError` when absent. -/
def dict_get (m : List (ℚ × ℤ)) (key : ℚ) : Except PyErr ℤ :=
  match m with
  | [] => .error (.keyError "pct")
  | (k, v) :: rest => if k = key then .ok v else dict_get rest key

/-- The loop of `check_terse`: for each terse percentile field, require exact
equality with `math.floor(jsondata[pct]/1000)`. -/
def check_terse_loop (jsondata : List (ℚ × ℤ)) :
    List TerseField → List Diag × Except PyErr Bool
  | [] => ([], .ok true)
  | f :: rest =>
    match dict_get jsondata f.pct with
    | .error e => ([], .error e)
    | .ok v =>
      let json_val := ⌊(v : ℚ) / 1000⌋
      let (d, r) := check_terse_loop jsondata rest
      if f.value ≠ json_val then
        (Diag.terseMismatch f.pct v json_val f.value :: d,
         match r with
         | .error e => .error e
         | .ok _ => .ok false)
      else (d, r)

/-- `check_terse(terse, jsondata)`: compare a slice of terse percentile
fields against the structured percentile mapping. -/
def check_terse (terse : List TerseField) (jsondata : List (ℚ × ℤ)) :
    List Diag × Except PyErr Bool :=
  check_terse_loop jsondata terse

/-- The offset-scanning loop of `get_json`: try to decode starting at each
line offset in turn, returning the first success. -/
def try_offsets {Doc : Type} (loads : String → Option Doc)
    (lines : List String) : List ℕ → Bool × Option Doc
  | [] => (false, none)
  | i :: rest =>
    match loads (String.intercalate "\n" (lines.drop i)) with
    | some d => (true, some d)
    | none => try_offsets loads lines rest

/-- `get_json(filename)`: the file is modelled as its list of lines and
`json.loads` as the decode oracle `loads` (`none` models
`json.JSONDecodeError`); `for i in range(5)` tries offsets 0 through 4 and
the fall-through returns the failure result. -/
def get_json {Doc : Type} (loads : String → Option Doc)
    (lines : List String) : Bool × Option Doc :=
  try_offsets loads lines [0, 1, 2, 3, 4]

theorem try_offsets_all_none {Doc : Type} (loads : String → Option Doc)
    (lines : List String) :
    ∀ is : List ℕ,
      (∀ i ∈ is, loads (String.intercalate "\n" (lines.drop i)) = none) →
      try_offsets loads lines is = (false, none) := by
  intro is
  induction is with
  | nil => intro _; rfl
  | cons i rest ih =>
    intro h
    simp only [try_offsets]
    rw [h i (by simp)]
    exact ih (fun a ha => h a (by simp [ha]))

theorem try_offsets_found {Doc : Type} (loads : String → Option Doc)
    (lines : List String) (d : Doc) :
    ∀ (as : List ℕ) (i : ℕ) (bs : List ℕ),
      (∀ a ∈ as, loads (String.intercalate "\n" (lines.drop a)) = none) →
      loads (String.intercalate "\n" (lines.drop i)) = some d →
      try_offsets loads lines (as ++ i :: bs) = (true, some d) := by
  intro as
  induction as with
  | nil =>
    intro i bs _ hd
    simp only [List.nil_append, try_offsets]
    rw [hd]
  | cons a rest ih =>
    intro i bs hnone hd
    simp only [List.cons_append, try_offsets]
    rw [hnone a (by simp)]
    exact ih i bs (fun x hx => hnone x (by simp [hx])) hd

/-- C10: `get_json` tries line offsets 0 through 4, returns `(True, doc)` at
the first (smallest) offset whose remaining text decodes, and returns the
failure result exactly when all five offsets fail. -/
theorem get_json_offset_scan {Doc : Type} (loads : String → Option Doc)
    (lines : List String) :
    ((∀ i, i < 5 → loads (String.intercalate "\n" (lines.drop i)) = none) →
      get_json loads lines = (false, none)) ∧
    (∀ j d, j < 5 →
      (∀ i, i < j → loads (String.intercalate "\n" (lines.drop i)) = none) →
      loads (String.intercalate "\n" (lines.drop j)) = some d →
      get_json loads lines = (true, some d)) := by
  constructor
  · intro h
    apply try_offsets_all_none
    intro i hi
    apply h
    simp only [List.mem_cons, List.not_mem_nil, or_false] at hi
    omega
  · intro j d hj hnone hsome
    have hmem : ∀ (as : List ℕ), (∀ a ∈ as, a < j) →
        ∀ a ∈ as, loads (String.intercalate "\n" (lines.drop a)) = none :=
      fun as hlt a ha => hnone a (hlt a ha)
    interval_cases j
    · exact try_offsets_found loads lines d [] 0 [1, 2, 3, 4] (by simp) hsome
    · exact try_offsets_found loads lines d [0] 1 [2, 3, 4]
        (hmem [0] (by decide)) hsome
    · exact try_offsets_found loads lines d [0, 1] 2 [3, 4]
        (hmem [0, 1] (by decide)) hsome
    · exact try_offsets_found loads lines d [0, 1, 2] 3 [4]
        (hmem [0, 1, 2] (by decide)) hsome
    · exact try_offsets_found loads lines d [0, 1, 2, 3] 4 []
        (hmem [0, 1, 2, 3] (by decide)) hsome

/-- A decode oracle for the C10 witness: only the exact text of the second
line parses. -/
def docLoads : String → Option ℕ :=
  fun s => if s = "ok" then some 7 else none

/-- Witness for C10: with one junk banner line, decoding succeeds at offset 1
and `get_json` returns that document. -/
theorem get_json_offset_scan_witness :
    get_json docLoads ["x", "ok"] = (true, some 7) :=
  (get_json_offset_scan docLoads ["x", "ok"]).2 1 7 (by norm_num)
    (by
      intro i hi
      interval_cases i
      decide)
    (by decide)

theorem check_terse_loop_spec (jsondata : List (ℚ × ℤ)) :
    ∀ terse : List TerseField,
      (∀ f ∈ terse, ∃ v, dict_get jsondata f.pct = .ok v) →
      ∃ b, (check_terse_loop jsondata terse).2 = .ok b ∧
        (b = true ↔ ∀ f ∈ terse, ∀ v, dict_get jsondata f.pct = .ok v →
          f.value = ⌊(v : ℚ) / 1000⌋) := by
  intro terse
  induction terse with
  | nil =>
    intro _
    exact ⟨true, rfl, by simp⟩
  | cons f rest ih =>
    intro hdom
    obtain ⟨v, hv⟩ := hdom f (List.mem_cons_self f rest)
    obtain ⟨b, hb, hiff⟩ := ih (fun g hg => hdom g (List.mem_cons_of_mem f hg))
    rcases hsplit : check_terse_loop jsondata rest with ⟨d0, r0⟩
    rw [hsplit] at hb
    simp only at hb
    subst hb
    by_cases hval : f.value = ⌊(v : ℚ) / 1000⌋
    · refine ⟨b, ?_, ?_⟩
      · simp [check_terse_loop, hv, hsplit, hval]
      · rw [hiff, List.forall_mem_cons]
        constructor
        · intro hrest
          refine ⟨?_, hrest⟩
          intro w hw
          rw [hv] at hw
          injection hw with hw
          rw [← hw]
          exact hval
        · intro h
          exact h.2
    · refine ⟨false, ?_, ?_⟩
      · simp [check_terse_loop, hv, hsplit, hval]
      · apply iff_of_false (by simp)
        rw [List.forall_mem_cons]
        intro h
        exact hval (h.1 v hv)

/-- C6: over its domain (every condensed field's percentile label resolves in
the structured mapping), `check_terse` runs to an explicit boolean and
returns `True` iff every condensed microsecond value exactly equals the floor
division by 1000 of the corresponding structured nanosecond value; any
inequality makes the verdict `False`. -/
theorem check_terse_exact_equality (terse : List TerseField)
    (jsondata : List (ℚ × ℤ))
    (hdom : ∀ f ∈ terse, ∃ v, dict_get jsondata f.pct = .ok v) :
    (∃ b, (check_terse terse jsondata).2 = .ok b) ∧
    ((check_terse terse jsondata).2 = .ok true ↔
      ∀ f ∈ terse, ∀ v, dict_get jsondata f.pct = .ok v →
        f.value = ⌊(v : ℚ) / 1000⌋) := by
  obtain ⟨b, hb, hiff⟩ := check_terse_loop_spec jsondata terse hdom
  refine ⟨⟨b, hb⟩, ?_⟩
  unfold check_terse
  rw [hb]
  simp only [Except.ok.injEq]
  exact hiff

/-- Witness for C6 at scenario C: structured value 1234000 ns for percentile
99; the condensed field `99%=1234` passes. -/
theorem check_terse_exact_equality_witness :
    (check_terse [⟨99, 1234⟩] [(99, 1234000)]).2 = .ok true :=
  (check_terse_exact_equality [⟨99, 1234⟩] [(99, 1234000)]
    (by
      intro f hf
      simp only [List.mem_singleton] at hf
      subst hf
      exact ⟨1234000, rfl⟩)).2.mpr
    (by
      intro f hf v hv
      simp only [List.mem_singleton] at hf
      subst hf
      simp only [dict_get, if_pos rfl] at hv
      injection hv with hv
      subst hv
      norm_num)

/-- C4 is a code bug: with the submission latency type disabled in the
scenario but a `percentile` mapping nonetheless present in its stats, the
loop prints the "unexpected slat percentiles found" diagnostic and clears
`this_iter`, but the `continue` skips the `retval = False` update at the
bottom of the loop — so `check_latencies` still returns `True`. -/
theorem check_latencies_disabled_percentiles_lost :
    check_latencies (fun _ => [])
      ⟨0, ⟨some [], none, 0, 0, 0⟩, ⟨some [], none, 0, 0, 0⟩,
        ⟨some [], none, 0, 0, 0⟩⟩
      0 false true true false false =
      ([Diag.unexpectedPercentiles LatKind.slat,
        Diag.percentilesMatch LatKind.clat,
        Diag.percentilesMatch LatKind.lat], .ok true) := by
  rfl

theorem ptile_loop_ok (k : LatKind) (lat : List ℤ) (hne : lat ≠ [])
    (hpos : ∀ x ∈ lat, 0 < x) :
    ∀ pt : List (ℚ × ℤ), (∀ pr ∈ pt, 0 < pr.1 ∧ pr.1 ≤ 100) →
      ∃ d b, ptile_loop k lat pt = (d, .ok b) := by
  intro pt
  induction pt with
  | nil => intro _; exact ⟨[], true, rfl⟩
  | cons pr rest ih =>
    intro h
    obtain ⟨hp1, hp2⟩ := h pr (List.mem_cons_self pr rest)
    obtain ⟨d, b, hd⟩ := ih (fun q hq => h q (List.mem_cons_of_mem pr hq))
    rcases pr with ⟨pct, pv⟩
    have hlen : 0 < lat.length := List.length_pos.mpr hne
    have hlt : (percentile_index (percentile_rank pct lat.length)).toNat <
        lat.length :=
      percentile_index_toNat_lt pct lat.length hlen hp1 hp2
    have hget : lat[(percentile_index (percentile_rank pct lat.length)).toNat]? =
        some (lat[(percentile_index (percentile_rank pct lat.length)).toNat]) :=
      List.getElem?_eq_getElem hlt
    have hmem : lat[(percentile_index (percentile_rank pct lat.length)).toNat] ∈
        lat := List.getElem_mem hlt
    have hvne : lat[(percentile_index (percentile_rank pct lat.length)).toNat] ≠
        0 := by
      have := hpos _ hmem
      omega
    rcases hrel : relOk pv
        (lat[(percentile_index (percentile_rank pct lat.length)).toNat]) with _ | _
    · refine ⟨Diag.percentileError k pct pv
          (lat[(percentile_index (percentile_rank pct lat.length)).toNat])
          (pydelta pv
            (lat[(percentile_index (percentile_rank pct lat.length)).toNat])) ::
        Diag.rankIndex (percentile_rank pct lat.length)
          (percentile_index (percentile_rank pct lat.length)) :: d, false, ?_⟩
      simp [ptile_loop, hget, similar_eq_ok pv _ hvne, hrel, hd]
    · refine ⟨d, b, ?_⟩
      simp [ptile_loop, hget, similar_eq_ok pv _ hvne, hrel, hd]

theorem foldl_min_pos (rest : List ℤ) :
    ∀ x : ℤ, 0 < x → (∀ y ∈ rest, 0 < y) → 0 < rest.foldl min x := by
  induction rest with
  | nil => intro x hx _; exact hx
  | cons a t ih =>
    intro x hx h
    simp only [List.foldl_cons]
    exact ih (min x a) (lt_min hx (h a (by simp))) (fun y hy => h y (by simp [hy]))

theorem foldl_max_pos (rest : List ℤ) :
    ∀ x : ℤ, 0 < x → 0 < rest.foldl max x := by
  induction rest with
  | nil => intro x hx; exact hx
  | cons a t ih =>
    intro x hx
    simp only [List.foldl_cons]
    exact ih (max x a) (lt_of_lt_of_le hx (le_max_left x a))

theorem binsMin_pos (l : List (ℤ × ℤ)) (hne : l ≠ []) (h : ∀ pr ∈ l, 0 < pr.1) :
    0 < binsMin l := by
  cases l with
  | nil => exact absurd rfl hne
  | cons p t =>
    simp only [binsMin, binsKeys, List.map_cons]
    refine foldl_min_pos (t.map Prod.fst) p.1 (h p (by simp)) ?_
    intro y hy
    obtain ⟨q, hq, rfl⟩ := List.mem_map.mp hy
    exact h q (by simp [hq])

theorem binsMax_pos (l : List (ℤ × ℤ)) (hne : l ≠ []) (h : ∀ pr ∈ l, 0 < pr.1) :
    0 < binsMax l := by
  cases l with
  | nil => exact absurd rfl hne
  | cons p t =>
    simp only [binsMax, binsKeys, List.map_cons]
    exact foldl_max_pos (t.map Prod.fst) p.1 (h p (by simp))

/-- The bucket tables of a stats record are safe for `check_jsonplus`: under
extended encoding, any present table is non-empty with non-zero extreme
keys. -/
def BinsClean (plus : Bool) (stats : LatStats) : Prop :=
  ∀ l, plus = true → stats.bins = some l →
    l ≠ [] ∧ binsMin l ≠ 0 ∧ binsMax l ≠ 0

theorem bins_phase_ok (k : LatKind) (plus : Bool) (stats : LatStats)
    (h : BinsClean plus stats) :
    ∃ d b, bins_phase k plus stats = (d, .ok b) := by
  rcases plus with _ | _
  · rcases hb : stats.bins with _ | l
    · exact ⟨[], true, by simp [bins_phase, hb]⟩
    · exact ⟨[.unexpectedBins k], false, by simp [bins_phase, hb]⟩
  · rcases hb : stats.bins with _ | l
    · exact ⟨[.binsNotFound k], false, by simp [bins_phase, hb]⟩
    · obtain ⟨hne, hmin, hmax⟩ := h l rfl hb
      refine ⟨(if relOk stats.min (binsMin l) then []
          else [.minMismatch stats.min (binsMin l)]) ++
        (if relOk stats.max (binsMax l) then []
          else [.maxMismatch stats.max (binsMax l)]) ++
        (if binsCount l == stats.N then []
          else [.countMismatch stats.N (binsCount l)]),
        relOk stats.min (binsMin l) && relOk stats.max (binsMax l) &&
          (binsCount l == stats.N), ?_⟩
      simp [bins_phase, hb, check_jsonplus_eq stats l hb hne hmin hmax]

theorem check_one_skip (k : LatKind) (logrecs : List LogRecord)
    (stats : LatStats) (total_ios ddir : ℤ) (plus unified : Bool) :
    ∃ d, check_one k logrecs stats total_ios ddir false plus unified =
      (d, .ok none) := by
  rcases hp : stats.percentile with _ | pt
  · exact ⟨[.percentilesSkipped k], by simp [check_one, presence_phase, hp]⟩
  · exact ⟨[.unexpectedPercentiles k], by simp [check_one, presence_phase, hp]⟩

theorem check_one_ok (k : LatKind) (logrecs : List LogRecord) (stats : LatStats)
    (total_ios ddir : ℤ) (plus unified : Bool)
    (pt : List (ℚ × ℤ)) (hpt : stats.percentile = some pt)
    (hgood : ∀ pr ∈ pt, 0 < pr.1 ∧ pr.1 ≤ 100)
    (hbins : BinsClean plus stats)
    (hlne : loadLatencies logrecs ddir unified ≠ [])
    (hlpos : ∀ x ∈ loadLatencies logrecs ddir unified, 0 < x) :
    ∃ d b, check_one k logrecs stats total_ios ddir true plus unified =
      (d, .ok (some b)) := by
  obtain ⟨d2, b2, hb2⟩ := bins_phase_ok k plus stats hbins
  have hsne : (loadLatencies logrecs ddir unified).insertionSort (· ≤ ·) ≠ [] := by
    intro hcon
    have hl := sorted_length (loadLatencies logrecs ddir unified)
    rw [hcon] at hl
    exact hlne (List.length_eq_zero.mp hl.symm)
  have hspos : ∀ x ∈ (loadLatencies logrecs ddir unified).insertionSort (· ≤ ·),
      0 < x :=
    fun x hx => hlpos x ((sorted_mem _ x).mp hx)
  obtain ⟨d4, b4, hb4⟩ := ptile_loop_ok k _ hsne hspos pt hgood
  have hpres : presence_phase k true stats = ([], some true) := by
    simp [presence_phase, hpt]
  by_cases hcount : total_ios ≠ ((loadLatencies logrecs ddir unified).length : ℤ)
  · exact ⟨d2 ++ Diag.totalIosMismatch k total_ios
      (loadLatencies logrecs ddir unified).length :: d4, false,
      by simp [check_one, hpres, hb2, hpt, hb4, hcount]⟩
  · exact ⟨d2 ++ d4, b2 && b4,
      by simp [check_one, hpres, hb2, hpt, hb4, hcount]⟩

/-- The inputs for one latency type are in the checker's exception-free
domain: percentile mapping present with labels in `(0, 100]`, bucket tables
safe, and a non-empty, positive filtered sample log. -/
def KindClean (logs : LatKind → List LogRecord) (j : DirStats) (ddir : ℤ)
    (plus unified : Bool) (k : LatKind) : Prop :=
  (∃ pt, (j.statsOf k).percentile = some pt ∧
    ∀ pr ∈ pt, 0 < pr.1 ∧ pr.1 ≤ 100) ∧
  BinsClean plus (j.statsOf k) ∧
  loadLatencies (logs k) ddir unified ≠ [] ∧
  (∀ x ∈ loadLatencies (logs k) ddir unified, 0 < x)

theorem run_kinds_ok (logs : LatKind → List LogRecord) (j : DirStats)
    (ddir : ℤ) (plus unified : Bool) :
    ∀ (ks : List (LatKind × Bool)) (retval : Bool),
      (∀ k en, (k, en) ∈ ks → en = true → KindClean logs j ddir plus unified k) →
      ∃ d r, run_kinds logs j ddir plus unified ks retval = (d, .ok r) := by
  intro ks
  induction ks with
  | nil => intro retval _; exact ⟨[], retval, rfl⟩
  | cons ke rest ih =>
    rcases ke with ⟨k, en⟩
    intro retval hclean
    rcases en with _ | _
    · obtain ⟨d0, hd0⟩ := check_one_skip k (logs k) (j.statsOf k) j.total_ios
        ddir plus unified
      obtain ⟨d2, r2, hrest⟩ := ih retval
        (fun k2 e2 hm he => hclean k2 e2 (by simp [hm]) he)
      exact ⟨d0 ++ d2, r2, by simp [run_kinds, hd0, hrest]⟩
    · obtain ⟨⟨pt, hpt, hgood⟩, hbins, hlne, hlpos⟩ :=
        hclean k true (by simp) rfl
      obtain ⟨d0, b0, hd0⟩ := check_one_ok k (logs k) (j.statsOf k) j.total_ios
        ddir plus unified pt hpt hgood hbins hlne hlpos
      obtain ⟨d2, r2, hrest⟩ := ih (retval && b0)
        (fun k2 e2 hm he => hclean k2 e2 (by simp [hm]) he)
      exact ⟨(if b0 then d0 ++ [Diag.percentilesMatch k] else d0) ++ d2, r2,
        by simp [run_kinds, hd0, hrest]⟩

theorem run_kinds_from_false (logs : LatKind → List LogRecord) (j : DirStats)
    (ddir : ℤ) (plus unified : Bool) :
    ∀ (ks : List (LatKind × Bool)) (d : List Diag) (r : Bool),
      run_kinds logs j ddir plus unified ks false = (d, .ok r) → r = false := by
  intro ks
  induction ks with
  | nil =>
    intro d r h
    simp only [run_kinds, Prod.mk.injEq, Except.ok.injEq] at h
    exact h.2.symm
  | cons ke rest ih =>
    rcases ke with ⟨k, en⟩
    intro d r h
    rcases hco : check_one k (logs k) (j.statsOf k) j.total_ios ddir en plus
      unified with ⟨d0, r0⟩
    simp only [run_kinds, hco] at h
    rcases r0 with e | ob
    · simp at h
    · rcases ob with _ | b
      · rcases hrest : run_kinds logs j ddir plus unified rest false
          with ⟨dB, rB⟩
        simp only [hrest, Prod.mk.injEq] at h
        exact ih dB r (by rw [hrest, h.2])
      · rcases hrest : run_kinds logs j ddir plus unified rest (false && b)
          with ⟨dB, rB⟩
        simp only [hrest, Prod.mk.injEq] at h
        rw [Bool.false_and] at hrest
        exact ih dB r (by rw [hrest, h.2])

theorem run_kinds_mem_ok (logs : LatKind → List LogRecord) (j : DirStats)
    (ddir : ℤ) (plus unified : Bool) :
    ∀ (ks : List (LatKind × Bool)) (retval : Bool) (d : List Diag) (r : Bool)
      (k : LatKind) (en : Bool),
      run_kinds logs j ddir plus unified ks retval = (d, .ok r) →
      (k, en) ∈ ks →
      ∃ d0 ob, check_one k (logs k) (j.statsOf k) j.total_ios ddir en plus
        unified = (d0, .ok ob) := by
  intro ks
  induction ks with
  | nil => intro retval d r k en _ hmem; simp at hmem
  | cons ke rest ih =>
    rcases ke with ⟨k0, en0⟩
    intro retval d r k en h hmem
    rcases hco : check_one k0 (logs k0) (j.statsOf k0) j.total_ios ddir en0
      plus unified with ⟨d0, r0⟩
    simp only [run_kinds, hco] at h
    rcases List.mem_cons.mp hmem with heq | hmem2
    · obtain ⟨h1, h2⟩ := Prod.mk.injEq .. |>.mp heq
      subst h1
      subst h2
      rcases r0 with e | ob
      · simp at h
      · exact ⟨d0, ob, hco⟩
    · rcases r0 with e | ob
      · simp at h
      · rcases ob with _ | b
        · rcases hrest : run_kinds logs j ddir plus unified rest retval
            with ⟨dB, rB⟩
          simp only [hrest, Prod.mk.injEq] at h
          exact ih retval dB r k en (by rw [hrest, h.2]) hmem2
        · rcases hrest : run_kinds logs j ddir plus unified rest (retval && b)
            with ⟨dB, rB⟩
          simp only [hrest, Prod.mk.injEq] at h
          exact ih (retval && b) dB r k en (by rw [hrest, h.2]) hmem2

theorem run_kinds_mem_false (logs : LatKind → List LogRecord) (j : DirStats)
    (ddir : ℤ) (plus unified : Bool) :
    ∀ (ks : List (LatKind × Bool)) (retval : Bool) (d : List Diag) (r : Bool)
      (k : LatKind) (en : Bool),
      run_kinds logs j ddir plus unified ks retval = (d, .ok r) →
      (k, en) ∈ ks →
      (check_one k (logs k) (j.statsOf k) j.total_ios ddir en plus
        unified).2 = .ok (some false) →
      r = false := by
  intro ks
  induction ks with
  | nil => intro retval d r k en _ hmem; simp at hmem
  | cons ke rest ih =>
    rcases ke with ⟨k0, en0⟩
    intro retval d r k en h hmem hco
    rcases List.mem_cons.mp hmem with heq | hmem2
    · obtain ⟨h1, h2⟩ := Prod.mk.injEq .. |>.mp heq
      subst h1
      subst h2
      rcases hco2 : check_one k (logs k) (j.statsOf k) j.total_ios ddir en
        plus unified with ⟨d0, r0⟩
      rw [hco2] at hco
      simp only at hco
      subst hco
      simp only [run_kinds, hco2] at h
      rcases hrest : run_kinds logs j ddir plus unified rest (retval && false)
        with ⟨dB, rB⟩
      simp only [hrest, Prod.mk.injEq] at h
      rw [Bool.and_false] at hrest
      exact run_kinds_from_false logs j ddir plus unified rest dB r
        (by rw [hrest, h.2])
    · rcases hco2 : check_one k0 (logs k0) (j.statsOf k0) j.total_ios ddir en0
        plus unified with ⟨d0, r0⟩
      simp only [run_kinds, hco2] at h
      rcases r0 with e | ob
      · simp at h
      · rcases ob with _ | b
        · rcases hrest : run_kinds logs j ddir plus unified rest retval
            with ⟨dB, rB⟩
          simp only [hrest, Prod.mk.injEq] at h
          exact ih retval dB r k en (by rw [hrest, h.2]) hmem2 hco
        · rcases hrest : run_kinds logs j ddir plus unified rest (retval && b)
            with ⟨dB, rB⟩
          simp only [hrest, Prod.mk.injEq] at h
          exact ih (retval && b) dB r k en (by rw [hrest, h.2]) hmem2 hco

theorem check_one_encoding_false (k : LatKind) (logrecs : List LogRecord)
    (stats : LatStats) (total_ios ddir : ℤ) (plus unified : Bool)
    (hmis : (plus = false ∧ stats.bins.isSome = true) ∨
            (plus = true ∧ stats.bins = none))
    (d : List Diag) (ob : Option Bool)
    (h : check_one k logrecs stats total_ios ddir true plus unified =
      (d, .ok ob)) :
    ob = some false := by
  have hbp : bins_phase k plus stats =
      (if plus then [Diag.binsNotFound k] else [Diag.unexpectedBins k],
       .ok false) := by
    rcases hmis with ⟨hp, hb⟩ | ⟨hp, hb⟩
    · subst hp
      simp [bins_phase, hb]
    · subst hp
      simp [bins_phase, hb]
  rcases hpt : stats.percentile with _ | pt
  · have hpres : presence_phase k true stats =
        ([.percentilesNotFound k], some false) := by
      simp [presence_phase, hpt]
    by_cases hc : total_ios ≠ ((loadLatencies logrecs ddir unified).length : ℤ) <;>
      simp [check_one, hpres, hbp, hpt, hc] at h
  · have hpres : presence_phase k true stats = ([], some true) := by
      simp [presence_phase, hpt]
    rcases hploop : ptile_loop k
        ((loadLatencies logrecs ddir unified).insertionSort (· ≤ ·)) pt
      with ⟨d4, r4⟩
    rcases r4 with e | it4
    · by_cases hc : total_ios ≠
          ((loadLatencies logrecs ddir unified).length : ℤ) <;>
        simp [check_one, hpres, hbp, hpt, hploop, hc] at h
    · by_cases hc : total_ios ≠
          ((loadLatencies logrecs ddir unified).length : ℤ) <;>
        · simp [check_one, hpres, hbp, hpt, hploop, hc] at h
          exact h.2.symm

/-- C7: a mismatch between the reported `total_ios` and the number of samples
loaded from the log is a soft failure: the latency type's verdict becomes
`some false` with the count diagnostic emitted, the per-percentile loop is
still performed afterwards and its diagnostics reported — and through the
aggregation the direction verdict of `check_latencies` is `False`. -/
theorem total_ios_mismatch_soft_failure (k : LatKind)
    (logrecs : List LogRecord) (stats : LatStats) (total_ios ddir : ℤ)
    (plus unified : Bool) (pt : List (ℚ × ℤ)) (d2 d4 : List Diag)
    (it2 it4 : Bool)
    (hpt : stats.percentile = some pt)
    (hbins : bins_phase k plus stats = (d2, .ok it2))
    (hloop : ptile_loop k
      ((loadLatencies logrecs ddir unified).insertionSort (· ≤ ·)) pt =
      (d4, .ok it4))
    (hcount : total_ios ≠ ((loadLatencies logrecs ddir unified).length : ℤ)) :
    check_one k logrecs stats total_ios ddir true plus unified =
      (d2 ++ Diag.totalIosMismatch k total_ios
        (loadLatencies logrecs ddir unified).length :: d4,
       .ok (some false)) ∧
    (∀ (logs : LatKind → List LogRecord) (j : DirStats)
      (slat clat tlat : Bool) (D : List Diag) (R : Bool),
      logs k = logrecs → j.statsOf k = stats → j.total_ios = total_ios →
      (k, true) ∈ [(LatKind.slat, slat), (LatKind.clat, clat),
        (LatKind.lat, tlat)] →
      check_latencies logs j ddir slat clat tlat plus unified = (D, .ok R) →
      R = false) := by
  have hpres : presence_phase k true stats = ([], some true) := by
    simp [presence_phase, hpt]
  have hmain : check_one k logrecs stats total_ios ddir true plus unified =
      (d2 ++ Diag.totalIosMismatch k total_ios
        (loadLatencies logrecs ddir unified).length :: d4,
       .ok (some false)) := by
    simp [check_one, hpres, hbins, hpt, hloop, hcount]
  refine ⟨hmain, ?_⟩
  intro logs j slat clat tlat D R hlogs hstats hios hkmem hrun
  apply run_kinds_mem_false logs j ddir plus unified _ true D R k true hrun
    hkmem
  rw [hlogs, hstats, hios, hmain]

/-- Witness for C7: two write samples logged, reported `total_ios = 3`; the
type verdict is false with the count diagnostic, and the (empty) percentile
loop still ran. -/
theorem total_ios_mismatch_soft_failure_witness :
    check_one LatKind.clat [⟨5, 0⟩, ⟨5, 0⟩] ⟨some [], none, 0, 0, 0⟩ 3 0 true
      false false =
      ([] ++ Diag.totalIosMismatch LatKind.clat 3
        (loadLatencies [⟨5, 0⟩, ⟨5, 0⟩] 0 false).length :: [],
       .ok (some false)) :=
  (total_ios_mismatch_soft_failure LatKind.clat [⟨5, 0⟩, ⟨5, 0⟩]
    ⟨some [], none, 0, 0, 0⟩ 3 0 false false [] [] [] true true rfl rfl rfl
    (by decide)).1

/-- C8 counterexample: a `bins` table present under plain encoding for a
*disabled* latency type is silently ignored — the type is skipped by the
`continue` before the encoding check, and `check_latencies` returns `True`. -/
theorem check_latencies_disabled_bins_ignored :
    check_latencies (fun _ => [])
      ⟨0, ⟨none, some [(5, 1)], 0, 5, 5⟩, ⟨some [], none, 0, 0, 0⟩,
        ⟨some [], none, 0, 0, 0⟩⟩
      0 false true true false false =
      ([Diag.percentilesSkipped LatKind.slat,
        Diag.percentilesMatch LatKind.clat,
        Diag.percentilesMatch LatKind.lat], .ok true) := by
  rfl

/-- C8 amended: encoding gating applies to *enabled* latency types: if, for
an enabled type, a `bins` table is present under plain encoding or absent
under extended encoding, then whenever `check_latencies` completes without an
exception its direction verdict is `False`; for a disabled type the encoding
check is skipped entirely. -/
theorem check_latencies_enabled_encoding_gating
    (logs : LatKind → List LogRecord) (j : DirStats) (ddir : ℤ)
    (slat clat tlat plus unified : Bool) (k : LatKind)
    (hkmem : (k, true) ∈ [(LatKind.slat, slat), (LatKind.clat, clat),
      (LatKind.lat, tlat)])
    (hmis : (plus = false ∧ (j.statsOf k).bins.isSome = true) ∨
            (plus = true ∧ (j.statsOf k).bins = none))
    (D : List Diag) (R : Bool)
    (hrun : check_latencies logs j ddir slat clat tlat plus unified =
      (D, .ok R)) :
    R = false := by
  obtain ⟨d0, ob, hco⟩ := run_kinds_mem_ok logs j ddir plus unified _ true D R
    k true hrun hkmem
  have hob := check_one_encoding_false k (logs k) (j.statsOf k) j.total_ios
    ddir plus unified hmis d0 ob hco
  subst hob
  exact run_kinds_mem_false logs j ddir plus unified _ true D R k true hrun
    hkmem (by rw [hco])

/-- Witness for C8: enabled submission latency with a bins table under plain
encoding; `check_latencies` completes and its verdict is false. -/
theorem check_latencies_enabled_encoding_gating_witness :
    (false : Bool) = false :=
  check_latencies_enabled_encoding_gating (fun _ => [])
    ⟨0, ⟨some [], some [(5, 1)], 0, 5, 5⟩, ⟨some [], none, 0, 0, 0⟩,
      ⟨some [], none, 0, 0, 0⟩⟩ 0 true true true false false LatKind.slat
    (by decide) (Or.inl ⟨rfl, rfl⟩)
    [Diag.unexpectedBins LatKind.slat, Diag.percentilesMatch LatKind.clat,
      Diag.percentilesMatch LatKind.lat] false rfl

/-- C9 counterexample: `check_sync_lat` under non-extended encoding with sync
stats carrying no `bins` table does not return a boolean — the unconditional
`check_jsonplus` call raises `KeyError` on the missing key. -/
theorem check_sync_lat_missing_bins_raises :
    check_sync_lat ⟨5, ⟨none, none, 0, 0, 0⟩, ⟨none, none, 0, 0, 0⟩,
      ⟨some [], none, 5, 0, 0⟩⟩ false =
      ([], .error (.keyError "bins")) := by
  rfl

/-- C9 amended: on the exception-free domain — every enabled latency type has
a percentile mapping with labels in `(0, 100]`, its filtered sample log is
non-empty and positive, and any bucket table reached under extended encoding
is non-empty with non-zero extreme keys — `check_latencies` runs to
completion and returns an explicit boolean; outside it (enabled type without
a percentile mapping, a zero reference value, sync stats without bins)
`KeyError` / `ZeroDivisionError` escape. -/
theorem check_latencies_ok_on_clean_inputs (logs : LatKind → List LogRecord)
    (j : DirStats) (ddir : ℤ) (slat clat tlat plus unified : Bool)
    (h : ∀ k en, (k, en) ∈ [(LatKind.slat, slat), (LatKind.clat, clat),
      (LatKind.lat, tlat)] → en = true → KindClean logs j ddir plus unified k) :
    ∃ d b, check_latencies logs j ddir slat clat tlat plus unified =
      (d, .ok b) :=
  run_kinds_ok logs j ddir plus unified _ true h

/-- The stats record of the C9 witness. -/
def cleanStats : LatStats :=
  ⟨some [(50, 10)], none, 1, 10, 10⟩

/-- Witness for C9's amended theorem: all three types enabled with one
percentile entry and one positive logged sample. -/
theorem check_latencies_ok_on_clean_inputs_witness :
    ∃ d b, check_latencies (fun _ => [⟨10, 0⟩])
      ⟨1, cleanStats, cleanStats, cleanStats⟩ 0 true true true false false =
      (d, .ok b) :=
  check_latencies_ok_on_clean_inputs (fun _ => [⟨10, 0⟩])
    ⟨1, cleanStats, cleanStats, cleanStats⟩ 0 true true true false false
    (by
      intro k en _ _
      refine ⟨⟨[(50, 10)], ?_, ?_⟩, ?_, ?_, ?_⟩
      · cases k <;> rfl
      · intro pr hpr
        simp only [List.mem_singleton] at hpr
        subst hpr
        constructor <;> norm_num
      · intro l hl
        simp at hl
      · show loadLatencies [⟨10, 0⟩] 0 false ≠ []
        decide
      · show ∀ x ∈ loadLatencies [⟨10, 0⟩] 0 false, 0 < x
        decide)
